import Mathlib

/-!
Verification development for the go-store repository.

The document value domain (`Val`), deep copy (`CopyDocument` / `copyValue`),
the value comparator (`CompareValues`), the field index, the MVCC collection
(version chains, visibility, writes, garbage collection) and the transaction
layer are shallowly embedded from the Go source.  Go maps are modelled as
association lists, slices as lists, `int64` times as `Int`, and `float64`
values as `Option ℚ` where `none` stands for NaN (IEEE comparisons with NaN
are all false, which is exactly what the embedding of `<` below does; finite
floats are modelled as exact rationals, since only their ordering matters to
the claims, not rounding).
-/

/-- Document values: Go `any` restricted to the kinds the source code
distinguishes (`utils.CompareValues`, `utils.copyValue`).  `vother` stands for
any further Go type and carries the two observations the source makes of such
a value: its `reflect` type name and its `fmt %v` rendering. -/
inductive Val where
  | vnil : Val
  | vint (n : ℤ) : Val
  | vint32 (n : ℤ) : Val
  | vint64 (n : ℤ) : Val
  | vfloat32 (x : Option ℚ) : Val
  | vfloat64 (x : Option ℚ) : Val
  | vbool (b : Bool) : Val
  | vstr (s : String) : Val
  | vmap (m : List (String × Val)) : Val
  | vlist (xs : List Val) : Val
  | vintList (xs : List ℤ) : Val
  | vstrList (xs : List String) : Val
  | vother (ty : String) (repr : String) : Val

/-- Document data: Go `map[string]any` as an association list. -/
abbrev Doc := List (String × Val)

mutual

/-- Embeds `utils.copyValue`: deep copy of a single value.  Fresh slices with
the same scalar elements are the lists themselves in the pure model. -/
def copyValue : Val → Val
  | .vmap m => .vmap (copyPairs m)
  | .vlist xs => .vlist (copyValList xs)
  | .vintList xs => .vintList xs
  | .vstrList xs => .vstrList xs
  | v => v

/-- Deep copy of the entries of a document mapping (the loop body of
`utils.CopyDocument`). -/
def copyPairs : List (String × Val) → List (String × Val)
  | [] => []
  | (k, v) :: rest => (k, copyValue v) :: copyPairs rest

/-- Deep copy of the elements of a `[]any` slice. -/
def copyValList : List Val → List Val
  | [] => []
  | v :: rest => copyValue v :: copyValList rest

end

/-- Embeds `utils.CopyDocument` (the `nil` map case does not arise in the
model, where absent data is represented by `Option Doc`). -/
def CopyDocument (src : Doc) : Doc := copyPairs src


/-! ## The value comparator (`utils.CompareValues`) -/

/-- Go `v == nil` on a document value. -/
def isNil : Val → Bool
  | .vnil => true
  | _ => false

/-- Embeds `utils.isNumber`. -/
def isNumber : Val → Bool
  | .vint _ | .vint32 _ | .vint64 _ | .vfloat32 _ | .vfloat64 _ => true
  | _ => false

/-- Embeds `utils.toFloat64`; the default arm returns 0 exactly as the source
does (unreachable when guarded by `isNumber`). -/
def toFloat64 : Val → Option ℚ
  | .vint n => some (n : ℚ)
  | .vint32 n => some (n : ℚ)
  | .vint64 n => some (n : ℚ)
  | .vfloat32 x => x
  | .vfloat64 x => x
  | _ => some 0

/-- Go `<` on two float64 values: false whenever either side is NaN. -/
def fLt : Option ℚ → Option ℚ → Bool
  | some x, some y => decide (x < y)
  | _, _ => false

/-- Embeds `utils.compareNumbers`. -/
def compareNumbers (a b : Option ℚ) : Int :=
  if fLt a b then -1 else if fLt b a then 1 else 0

/-- The three-way compare `if a < b then -1 else if a > b then 1 else 0`,
which the source spells out at each site (strings, type names, renderings). -/
def cmpOf {α : Type} [LinearOrder α] (x y : α) : Int :=
  if x < y then -1 else if y < x then 1 else 0

/-- The `reflect.TypeOf(v).String()` label of a (non-nil) value. -/
def typeLabel : Val → String
  | .vnil => "<nil>"
  | .vint _ => "int"
  | .vint32 _ => "int32"
  | .vint64 _ => "int64"
  | .vfloat32 _ => "float32"
  | .vfloat64 _ => "float64"
  | .vbool _ => "bool"
  | .vstr _ => "string"
  | .vmap _ => "map[string]interface \x7b\x7d"
  | .vlist _ => "[]interface \x7b\x7d"
  | .vintList _ => "[]int"
  | .vstrList _ => "[]string"
  | .vother ty _ => ty

/-- Go `reflect.TypeOf(a) == reflect.TypeOf(b)`: same dynamic type.  Two
`vother` values are the same type iff their type names agree.  (The nil arm
is unreachable: the comparator tests it only behind its nil checks.) -/
def sameType : Val → Val → Bool
  | .vnil, .vnil => true
  | .vint _, .vint _ => true
  | .vint32 _, .vint32 _ => true
  | .vint64 _, .vint64 _ => true
  | .vfloat32 _, .vfloat32 _ => true
  | .vfloat64 _, .vfloat64 _ => true
  | .vbool _, .vbool _ => true
  | .vstr _, .vstr _ => true
  | .vmap _, .vmap _ => true
  | .vlist _, .vlist _ => true
  | .vintList _, .vintList _ => true
  | .vstrList _, .vstrList _ => true
  | .vother t1 _, .vother t2 _ => t1 == t2
  | _, _ => false

mutual

/-- The `fmt.Sprintf("%v", v)` rendering.  Modelled approximately for
composite and float values (no claim depends on those renderings; for
`vother` the rendering is the carried `repr` field). -/
def fmtRepr : Val → String
  | .vnil => "<nil>"
  | .vint n => toString n
  | .vint32 n => toString n
  | .vint64 n => toString n
  | .vfloat32 x => match x with | some q => toString q | none => "NaN"
  | .vfloat64 x => match x with | some q => toString q | none => "NaN"
  | .vbool b => if b then "true" else "false"
  | .vstr s => s
  | .vmap m => "map[" ++ fmtReprPairs m ++ "]"
  | .vlist xs => "[" ++ fmtReprList xs ++ "]"
  | .vintList xs => "[" ++ String.intercalate " " (xs.map toString) ++ "]"
  | .vstrList xs => "[" ++ String.intercalate " " xs ++ "]"
  | .vother _ repr => repr

def fmtReprPairs : List (String × Val) → String
  | [] => ""
  | (k, v) :: rest => k ++ ":" ++ fmtRepr v ++ " " ++ fmtReprPairs rest

def fmtReprList : List Val → String
  | [] => ""
  | v :: rest => fmtRepr v ++ " " ++ fmtReprList rest

end

/-- Embeds `utils.compareSameType`.  The first two arms fire only when both
values are strings resp. booleans (the source casts, which is safe under its
same-type guard); everything else falls through to comparing renderings. -/
def compareSameType (a b : Val) : Int :=
  match a, b with
  | .vstr s, .vstr t => cmpOf s t
  | .vbool x, .vbool y => if x = y then 0 else if x then 1 else -1
  | _, _ => cmpOf (fmtRepr a) (fmtRepr b)

/-- Embeds `utils.CompareValues`. -/
def CompareValues (a b : Val) : Int :=
  if isNil a && isNil b then 0
  else if isNil a then -1
  else if isNil b then 1
  else if isNumber a && isNumber b then compareNumbers (toFloat64 a) (toFloat64 b)
  else if sameType a b then compareSameType a b
  else cmpOf (typeLabel a) (typeLabel b)

/-! ## Equality of values (`reflect.DeepEqual` on extracted index keys) -/

mutual

/-- Embeds `reflect.DeepEqual` on document values, as used by
`fieldIndex.updateDocument` on extracted key slices.  Floats compare with
`==`, so NaN is not equal to NaN.  Document equality is modelled as
association-list equality (documents are treated up to field order). -/
def valEq : Val → Val → Bool
  | .vnil, .vnil => true
  | .vint n, .vint m => n == m
  | .vint32 n, .vint32 m => n == m
  | .vint64 n, .vint64 m => n == m
  | .vfloat32 (some x), .vfloat32 (some y) => x == y
  | .vfloat64 (some x), .vfloat64 (some y) => x == y
  | .vbool x, .vbool y => x == y
  | .vstr s, .vstr t => s == t
  | .vmap m1, .vmap m2 => pairsEq m1 m2
  | .vlist l1, .vlist l2 => valListEq l1 l2
  | .vintList l1, .vintList l2 => l1 == l2
  | .vstrList l1, .vstrList l2 => l1 == l2
  | .vother t1 r1, .vother t2 r2 => t1 == t2 && r1 == r2
  | _, _ => false

def pairsEq : List (String × Val) → List (String × Val) → Bool
  | [], [] => true
  | (k1, v1) :: r1, (k2, v2) :: r2 => k1 == k2 && valEq v1 v2 && pairsEq r1 r2
  | _, _ => false

def valListEq : List Val → List Val → Bool
  | [], [] => true
  | v1 :: r1, v2 :: r2 => valEq v1 v2 && valListEq r1 r2
  | _, _ => false

end

/-! ## Field index (`core/collection` fieldIndex; the facade in `store.go`
has an identical `indexKey`/`indexEntry`/`lookupRange` implementation).

The google/btree tree is modelled as a list of entries with pairwise
inequivalent keys; queries become filters over that list.  Only the
membership of query results is at stake in the claims, so the iteration
order of the tree is not modelled. -/

/-- A composite index key: `key.values []any`. -/
abbrev IKey := List Val

/-- Embeds `key.Less`: element-by-element comparison over the common length,
then shorter-key-first. -/
def keyLess : IKey → IKey → Bool
  | [], [] => false
  | [], _ :: _ => true
  | _ :: _, [] => false
  | x :: xs, y :: ys =>
    let c := CompareValues x y
    if c ≠ 0 then decide (c < 0) else keyLess xs ys

/-- btree key equivalence: neither key is `Less` than the other. -/
def keyEquiv (a b : IKey) : Bool := !keyLess a b && !keyLess b a

/-- An index entry: a key and the set of document ids at that key
(`docIDs map[string]struct{}`, modelled as a duplicate-free list). -/
structure IdxEntry where
  key : IKey
  docIDs : List String

/-- A field index: `fieldIndex{name, fields, tree}`. -/
structure FieldIdx where
  name : String
  fields : List String
  tree : List IdxEntry

/-- Go set insertion `entry.docIDs[docID] = struct{}{}`. -/
def insertIdSet (ids : List String) (d : String) : List String :=
  if ids.contains d then ids else ids ++ [d]

/-- Embeds `fieldIndex.addToIndex`: `tree.Get` then either mutate the found
set of the found entry or `ReplaceOrInsert` a fresh entry. -/
def treeAdd : List IdxEntry → IKey → String → List IdxEntry
  | [], k, d => [⟨k, [d]⟩]
  | e :: rest, k, d =>
    if keyEquiv e.key k then { e with docIDs := insertIdSet e.docIDs d } :: rest
    else e :: treeAdd rest k d

/-- Embeds `fieldIndex.removeFromIndex`: remove the id from the entry at the
key, deleting the entry if its set becomes empty. -/
def treeRemove : List IdxEntry → IKey → String → List IdxEntry
  | [], _, _ => []
  | e :: rest, k, d =>
    if keyEquiv e.key k then
      let ids := e.docIDs.filter (fun x => x ≠ d)
      if ids.isEmpty then rest else { e with docIDs := ids } :: rest
    else e :: treeRemove rest k d

/-- Embeds `fieldIndex.extractKeyValues`: the tuple of values at the declared
fields, or `none` if any declared field is absent or nil. -/
def extractKeyValues (fields : List String) (data : Doc) : Option IKey :=
  match fields with
  | [] => some []
  | f :: fs =>
    match (data.find? (fun p => p.1 == f)).map (fun p => p.2) with
    | none => none
    | some v =>
      if isNil v then none
      else match extractKeyValues fs data with
        | none => none
        | some ks => some (v :: ks)

/-- Embeds `fieldIndex.insertDocument` (the `bool` result mirrors the Go
return value). -/
def insertDocument (fi : FieldIdx) (id : String) (doc : Doc) : FieldIdx × Bool :=
  match extractKeyValues fi.fields doc with
  | none => (fi, false)
  | some kv => ({ fi with tree := treeAdd fi.tree kv id }, true)

/-- `reflect.DeepEqual` on two optional extracted key slices. -/
def optKeyEq : Option IKey → Option IKey → Bool
  | none, none => true
  | some k1, some k2 => valListEq k1 k2
  | _, _ => false

/-- Embeds `fieldIndex.updateDocument`. -/
def updateDocument (fi : FieldIdx) (id : String) (prev cur : Doc) : FieldIdx × Bool :=
  let oldKV := extractKeyValues fi.fields prev
  let newKV := extractKeyValues fi.fields cur
  if optKeyEq oldKV newKV then (fi, oldKV.isSome)
  else
    let t1 := match oldKV with
      | some kv => treeRemove fi.tree kv id
      | none => fi.tree
    let t2 := match newKV with
      | some kv => treeAdd t1 kv id
      | none => t1
    ({ fi with tree := t2 }, oldKV.isSome || newKV.isSome)

/-- Embeds `fieldIndex.deleteDocument`. -/
def deleteDocument (fi : FieldIdx) (docID : String) (doc : Doc) : FieldIdx × Bool :=
  match extractKeyValues fi.fields doc with
  | none => (fi, false)
  | some kv => ({ fi with tree := treeRemove fi.tree kv docID }, true)

/-- Embeds `fieldIndex.lookup`: the set at the exact key, or nil. -/
def lookup (fi : FieldIdx) (values : IKey) : List String :=
  match fi.tree.find? (fun e => keyEquiv e.key values) with
  | some e => e.docIDs
  | none => []

/-- Embeds `fieldIndex.lookupRange`.  `btree.AscendRange(min, max, it)`
visits exactly the entries `e` with `¬(e.key < min)` and `e.key < max`
(half-open: the upper pivot is excluded), and the iterator always returns
true, so the result collects the ids of all such entries. -/
def lookupRange (fi : FieldIdx) (minValues maxValues : IKey) : List String :=
  (fi.tree.filter
    (fun e => !keyLess e.key minValues && keyLess e.key maxValues)).flatMap
    (fun e => e.docIDs)

/-! ## MVCC collection (`core/collection/collection.go`) -/

/-- Error values of the collection package and the store facade. -/
inductive StoreError where
  | transactionClosed
  | readOnlyTransaction
  | invalidData
  | documentNotFound
  | documentDeleted
  | indexExists
  | emptyIndex
  | indexNotFound
  | storeClosed
  | streamClosed
  deriving DecidableEq, Repr

/-- Embeds `documentVersion` (the `next` pointer becomes the tail of the
chain list). -/
structure DocVersion where
  createdTxnID : ℕ
  committedTime : ℤ
  data : Doc
  deleted : Bool

/-- Embeds `activeTransaction`. -/
inductive TransactionMode where
  | txR
  | txRW
  deriving DecidableEq, Repr

structure ActiveTxn where
  txnID : ℕ
  startTime : ℤ
  mode : TransactionMode

/-- Embeds `Collection`: document registry (id to version chain, newest
first) and index registry, both Go maps modelled as association lists. -/
structure Collection where
  documents : List (String × List DocVersion)
  indexes : List (String × FieldIdx)

/-- Go map lookup on an association list. -/
def lookupAssoc {α : Type} (l : List (String × α)) (k : String) : Option α :=
  (l.find? (fun p => p.1 == k)).map (fun p => p.2)

/-- Embeds `Collection.isVersionVisible`. -/
def isVersionVisible (v : DocVersion) (txnID : ℕ) (snapshotTime : ℤ) : Bool :=
  if v.createdTxnID == txnID then true
  else if v.committedTime == 0 then false
  else decide (v.committedTime < snapshotTime)

/-- The chain walk inside `Collection.read`. -/
def readChain (chain : List DocVersion) (txnID : ℕ) (snapshotTime : ℤ) :
    Except StoreError Doc :=
  match chain with
  | [] => .error .documentNotFound
  | v :: rest =>
    if isVersionVisible v txnID snapshotTime then
      if v.deleted then .error .documentDeleted
      else .ok (CopyDocument v.data)
    else readChain rest txnID snapshotTime

/-- Embeds `Collection.read`. -/
def collRead (c : Collection) (id : String) (txnID : ℕ) (snapshotTime : ℤ) :
    Except StoreError Doc :=
  match lookupAssoc c.documents id with
  | none => .error .documentNotFound
  | some chain => readChain chain txnID snapshotTime

/-- Embeds `write` (the transaction write record) and `document`. -/
structure WriteDoc where
  createdTxnID : ℕ
  data : Doc

structure Write where
  id : String
  delete : Bool
  doc : WriteDoc

/-- Embeds `Collection.updateIndexesForNewVersion`. -/
def updateIndexesForNewVersion (idxs : List (String × FieldIdx)) (docID : String)
    (prevVersion : Option DocVersion) (newVersion : DocVersion) :
    List (String × FieldIdx) :=
  idxs.map (fun p =>
    let prevData : Option Doc :=
      match prevVersion with
      | some pv => if pv.deleted then none else some pv.data
      | none => none
    let fi :=
      if newVersion.deleted then
        match prevData with
        | some pd => (deleteDocument p.2 docID pd).1
        | none => p.2
      else
        match prevData with
        | some pd => (updateDocument p.2 docID pd newVersion.data).1
        | none => (insertDocument p.2 docID newVersion.data).1
    (p.1, fi))

/-- Embeds `Collection.applyWrite`.  A failing write (delete of a missing
cell) returns the error before any mutation, exactly as the source does. -/
def applyWrite (c : Collection) (w : Write) (commitTime : ℤ) :
    Except StoreError Collection :=
  match lookupAssoc c.documents w.id with
  | none =>
    if w.delete then .error .documentNotFound
    else
      let newVersion : DocVersion :=
        ⟨w.doc.createdTxnID, commitTime, w.doc.data, false⟩
      .ok { documents := c.documents ++ [(w.id, [newVersion])],
            indexes := updateIndexesForNewVersion c.indexes w.id none newVersion }
  | some chain =>
    let prevVersion := chain.head?
    let newVersion : DocVersion :=
      ⟨w.doc.createdTxnID, commitTime, w.doc.data, w.delete⟩
    .ok { documents :=
            c.documents.map (fun p =>
              if p.1 == w.id then (p.1, newVersion :: p.2) else p),
          indexes := updateIndexesForNewVersion c.indexes w.id prevVersion newVersion }

/-- Embeds `Collection.write`: writes are applied one after another under the
registry lock; if one fails, the loop returns the error and the mutations of
the earlier writes remain in place. -/
def writeBatch (c : Collection) (ws : List Write) (commitTime : ℤ) :
    Collection × Option StoreError :=
  match ws with
  | [] => (c, none)
  | w :: rest =>
    match applyWrite c w commitTime with
    | .error e => (c, some e)
    | .ok c2 => writeBatch c2 rest commitTime

/-- The threshold computed by `Collection.garbageCollect`: the minimum start
time over the active transactions, seeded with the current time. -/
def gcThreshold (actives : List ActiveTxn) (now : ℤ) : ℤ :=
  actives.foldl (fun m t => if t.startTime < m then t.startTime else m) now

/-- Embeds `Collection.cleanupVersionChain`, returning the kept chain and the
unlinked suffix.  Walking from the head, the suffix starting at the first
version whose `committedTime` is positive and below the threshold is cut
off. -/
def cleanupChain (chain : List DocVersion) (oldestSnapshotTime : ℤ) :
    List DocVersion × List DocVersion :=
  match chain with
  | [] => ([], [])
  | [v] => ([v], [])
  | v :: w :: rest =>
    if 0 < w.committedTime ∧ w.committedTime < oldestSnapshotTime then
      ([v], w :: rest)
    else
      let p := cleanupChain (w :: rest) oldestSnapshotTime
      (v :: p.1, p.2)

/-- Embeds `Collection.cleanupIndexesForOldVersions`. -/
def cleanupIndexesForOldVersions (idxs : List (String × FieldIdx))
    (docID : String) (versions : List DocVersion) : List (String × FieldIdx) :=
  versions.foldl
    (fun acc v =>
      if v.deleted then acc
      else acc.map (fun p => (p.1, (deleteDocument p.2 docID v.data).1)))
    idxs

/-- The per-document loop of `Collection.garbageCollect`. -/
def gcDocs (docs : List (String × List DocVersion))
    (idxs : List (String × FieldIdx)) (threshold : ℤ) :
    List (String × List DocVersion) × List (String × FieldIdx) :=
  match docs with
  | [] => ([], idxs)
  | (id, chain) :: rest =>
    let p := cleanupChain chain threshold
    let idxs2 := cleanupIndexesForOldVersions idxs id p.2
    let r := gcDocs rest idxs2 threshold
    ((id, p.1) :: r.1, r.2)

/-- Embeds `Collection.garbageCollect` (run at time `now` against the given
active-transaction set). -/
def garbageCollect (c : Collection) (actives : List ActiveTxn) (now : ℤ) :
    Collection :=
  let threshold := gcThreshold actives now
  let r := gcDocs c.documents c.indexes threshold
  { documents := r.1, indexes := r.2 }

/-- Embeds `Collection.CreateIndex`: register a new index after populating it
with the first committed non-tombstone version of every document chain.
Note that the source performs no empty-fields check here (the `store.go`
facade checks `len(fields) == 0` before reaching its registry). -/
def collCreateIndex (c : Collection) (name : String) (fields : List String) :
    Except StoreError Collection :=
  if (lookupAssoc c.indexes name).isSome then .error .indexExists
  else
    let idx := c.documents.foldl
      (fun fi p =>
        match p.2.find? (fun v => decide (0 < v.committedTime) && !v.deleted) with
        | some v => (insertDocument fi p.1 v.data).1
        | none => fi)
      ⟨name, fields, []⟩
    .ok { c with indexes := c.indexes ++ [(name, idx)] }

/-! ## Transactions (`core/collection/transaction.go`) -/

/-- Embeds `Transaction` (the back pointer to the collection is passed
explicitly to each operation). -/
structure Txn where
  txnID : ℕ
  txnTime : ℤ
  closed : Bool
  writes : List Write
  mode : TransactionMode

/-- Embeds `Transaction.Create`.  The UUID generator is an injected
collaborator producing unique strings, so the fresh id is a parameter. -/
def tCreate (t : Txn) (newId : String) (data : Option Doc) :
    Except StoreError (Txn × String) :=
  if t.closed then .error .transactionClosed
  else if t.mode ≠ .txRW then .error .readOnlyTransaction
  else match data with
    | none => .error .invalidData
    | some d =>
      .ok ({ t with writes := t.writes ++ [⟨newId, false, ⟨t.txnID, d⟩⟩] }, newId)

/-- Embeds `Transaction.Update`.  Presence is checked through
`collection.read` with the id and snapshot time of the transaction; the write
buffer is not consulted. -/
def tUpdate (c : Collection) (t : Txn) (id : String) (data : Option Doc) :
    Except StoreError Txn :=
  if t.closed then .error .transactionClosed
  else if t.mode ≠ .txRW then .error .readOnlyTransaction
  else match data with
    | none => .error .invalidData
    | some d =>
      match collRead c id t.txnID t.txnTime with
      | .error e => .error e
      | .ok _ =>
        .ok { t with writes := t.writes ++ [⟨id, false, ⟨t.txnID, d⟩⟩] }

/-- Embeds `Transaction.Delete` (same presence check as `Update`; the
buffered delete record carries no data). -/
def tDelete (c : Collection) (t : Txn) (id : String) : Except StoreError Txn :=
  if t.closed then .error .transactionClosed
  else if t.mode ≠ .txRW then .error .readOnlyTransaction
  else
    match collRead c id t.txnID t.txnTime with
    | .error e => .error e
    | .ok _ =>
      .ok { t with writes := t.writes ++ [⟨id, true, ⟨t.txnID, []⟩⟩] }

/-- The backward scan of the write buffer in `Transaction.Read`: the last
buffered write for the id, if any. -/
def lastWrite (ws : List Write) (id : String) : Option Write :=
  match ws with
  | [] => none
  | w :: rest =>
    match lastWrite rest id with
    | some r => some r
    | none => if w.id == id then some w else none

/-- Embeds `Transaction.Read`: pending writes are served straight from the
buffer (a pending delete signals `DocumentDeleted`), otherwise the MVCC read
runs with the snapshot of the transaction. -/
def tRead (c : Collection) (t : Txn) (id : String) : Except StoreError Doc :=
  if t.closed then .error .transactionClosed
  else
    match lastWrite t.writes id with
    | some w =>
      if w.delete then .error .documentDeleted else .ok w.doc.data
    | none => collRead c id t.txnID t.txnTime

/-- Embeds `Transaction.Exists`. -/
def tExists (c : Collection) (t : Txn) (id : String) : Except StoreError Bool :=
  if t.closed then .error .transactionClosed
  else
    match tRead c t id with
    | .error e =>
      if e = .documentNotFound ∨ e = .documentDeleted then .ok false
      else .error e
    | .ok _ => .ok true

/-! ## Heap-explicit model of the read paths (for the deep-copy property)

Whether a read path returns a deep copy or a shared reference is a heap
property, so the buffered-read path of `Transaction.Read` is modelled once
more with an explicit heap: document mappings live in an arena and both the
write buffer and the version chains hold references into it.  The
collection read path allocates a fresh copy (`utils.CopyDocument`) before
returning, exactly as `Collection.read` does; the buffer hit in
`Transaction.Read` returns the stored reference itself, exactly as
`return t.writes[i].doc.data` does. -/

structure HWrite where
  id : String
  delete : Bool
  dataRef : ℕ

structure HVersion where
  createdTxnID : ℕ
  committedTime : ℤ
  dataRef : ℕ
  deleted : Bool

/-- The heap-explicit state of one transaction over the collection: the
arena, the document registry, the transaction fields and its write buffer. -/
structure HState where
  heap : List Doc
  documents : List (String × List HVersion)
  txnID : ℕ
  txnTime : ℤ
  closed : Bool
  writes : List HWrite

/-- Reading a mapping out of the arena. -/
def derefHeap (h : List Doc) (r : ℕ) : Doc := h.getD r []

/-- `Collection.isVersionVisible` on a heap version. -/
def hVisible (v : HVersion) (txnID : ℕ) (snapshotTime : ℤ) : Bool :=
  if v.createdTxnID == txnID then true
  else if v.committedTime == 0 then false
  else decide (v.committedTime < snapshotTime)

/-- The chain walk of `Collection.read`; a successful read allocates a fresh
deep copy in the arena and returns the fresh reference. -/
def hReadChain (s : HState) : List HVersion → HState × Except StoreError ℕ
  | [] => (s, .error .documentNotFound)
  | v :: rest =>
    if hVisible v s.txnID s.txnTime then
      if v.deleted then (s, .error .documentDeleted)
      else ({ s with heap := s.heap ++ [CopyDocument (derefHeap s.heap v.dataRef)] },
            .ok s.heap.length)
    else hReadChain s rest

/-- `Collection.read` on the heap-explicit state. -/
def hCollRead (s : HState) (id : String) : HState × Except StoreError ℕ :=
  match lookupAssoc s.documents id with
  | none => (s, .error .documentNotFound)
  | some chain => hReadChain s chain

/-- The backward buffer scan of `Transaction.Read`. -/
def hLastWrite (ws : List HWrite) (id : String) : Option HWrite :=
  match ws with
  | [] => none
  | w :: rest =>
    match hLastWrite rest id with
    | some r => some r
    | none => if w.id == id then some w else none

/-- `Transaction.Read` on the heap-explicit state: a buffered put is served
as the buffered reference itself, without a copy. -/
def hRead (s : HState) (id : String) : HState × Except StoreError ℕ :=
  if s.closed then (s, .error .transactionClosed)
  else
    match hLastWrite s.writes id with
    | some w => if w.delete then (s, .error .documentDeleted) else (s, .ok w.dataRef)
    | none => hCollRead s id

/-- A caller mutating, in place, the mapping a read handed to it. -/
def mutateHeap (s : HState) (r : ℕ) (d : Doc) : HState :=
  { s with heap := s.heap.set r d }

/-! ## Claim-side and order-side auxiliary definitions -/

/-- Spec-side definition, following the words of the claim for
`lookup_range`: the union of the member-sets of all entries whose key `K`
satisfies `min ≤ K ≤ max` under the §4.1 order, inclusive on both ends. -/
def lookupRangeInclusiveSpec (fi : FieldIdx) (minValues maxValues : IKey) :
    List String :=
  (fi.tree.filter
    (fun e => !keyLess e.key minValues && !keyLess maxValues e.key)).flatMap
    (fun e => e.docIDs)

/-- Values on which the comparator behaves as a total preorder: nil,
booleans, strings and NaN-free numerics.  NaN floats and fallback values are
excluded (NaN compares equal to every number, and a fallback type label can
sort between the numeric type labels; either breaks transitivity). -/
def plainV : Val → Bool
  | .vnil => true
  | .vint _ | .vint32 _ | .vint64 _ => true
  | .vfloat32 x => x.isSome
  | .vfloat64 x => x.isSome
  | .vbool _ => true
  | .vstr _ => true
  | _ => false

/-- The rank a plain value occupies in the comparator order: nil below
booleans below numbers below strings (matching the lexicographic order of
the Go type labels). -/
def rankOf : Val → ℕ
  | .vnil => 0
  | .vbool _ => 1
  | .vint _ | .vint32 _ | .vint64 _ | .vfloat32 _ | .vfloat64 _ => 2
  | .vstr _ => 3
  | _ => 4

/-- The numeric component a plain value contributes to the order. -/
def keyq : Val → ℚ
  | .vbool b => if b then 1 else 0
  | .vint n => (n : ℚ)
  | .vint32 n => (n : ℚ)
  | .vint64 n => (n : ℚ)
  | .vfloat32 x => x.getD 0
  | .vfloat64 x => x.getD 0
  | _ => 0

/-- The string component a plain value contributes to the order. -/
def keys : Val → String
  | .vstr s => s
  | _ => ""

/-- The reference linear preorder on plain values: by rank, then numeric
component, then string component. -/
def specLE (a b : Val) : Prop :=
  rankOf a < rankOf b ∨
    (rankOf a = rankOf b ∧
      (keyq a < keyq b ∨ (keyq a = keyq b ∧ keys a ≤ keys b)))
mutual

theorem copyValue_id : (v : Val) → copyValue v = v
  | .vnil => rfl
  | .vint _ => rfl
  | .vint32 _ => rfl
  | .vint64 _ => rfl
  | .vfloat32 _ => rfl
  | .vfloat64 _ => rfl
  | .vbool _ => rfl
  | .vstr _ => rfl
  | .vmap m => by rw [copyValue, copyPairs_id]
  | .vlist xs => by rw [copyValue, copyValList_id]
  | .vintList _ => rfl
  | .vstrList _ => rfl
  | .vother _ _ => rfl

theorem copyPairs_id : (l : List (String × Val)) → copyPairs l = l
  | [] => rfl
  | (k, v) :: rest => by rw [copyPairs, copyValue_id, copyPairs_id]

theorem copyValList_id : (l : List Val) → copyValList l = l
  | [] => rfl
  | v :: rest => by rw [copyValList, copyValue_id, copyValList_id]

end

theorem CopyDocument_id (d : Doc) : CopyDocument d = d := copyPairs_id d

theorem cmpOf_self {α : Type} [LinearOrder α] (x : α) : cmpOf x x = 0 := by
  simp [cmpOf]

theorem cmpOf_anti {α : Type} [LinearOrder α] (x y : α) : cmpOf x y = -cmpOf y x := by
  unfold cmpOf
  rcases lt_trichotomy x y with h | h | h
  · simp [h, lt_asymm h]
  · simp [h, lt_irrefl]
  · simp [h, lt_asymm h]

theorem cmpOf_nonpos {α : Type} [LinearOrder α] (x y : α) : cmpOf x y ≤ 0 ↔ x ≤ y := by
  unfold cmpOf
  split_ifs with h1 h2
  · simp [le_of_lt h1]
  · simp [not_le.mpr h2]
  · simp [not_lt.mp h2]

theorem fLt_self (x : Option ℚ) : fLt x x = false := by
  cases x <;> simp [fLt]

theorem fLt_asymm {x y : Option ℚ} (h : fLt x y = true) : fLt y x = false := by
  cases x <;> cases y <;> simp_all [fLt]
  exact le_of_lt h

theorem compareNumbers_self (x : Option ℚ) : compareNumbers x x = 0 := by
  simp [compareNumbers, fLt_self]

theorem compareNumbers_anti (x y : Option ℚ) : compareNumbers x y = -compareNumbers y x := by
  unfold compareNumbers
  cases h1 : fLt x y
  · cases h2 : fLt y x <;> simp
  · simp [fLt_asymm h1]

theorem compareNumbers_some (x y : ℚ) : compareNumbers (some x) (some y) = cmpOf x y := by
  simp [compareNumbers, fLt, cmpOf]

theorem sameType_refl (a : Val) : sameType a a = true := by
  cases a <;> simp [sameType]

theorem sameType_comm (a b : Val) : sameType a b = sameType b a := by
  cases a <;> cases b <;> simp [sameType]
  · rename_i t1 r1 t2 r2
    by_cases h : t1 = t2
    · simp [h]
    · simp [h, fun e : t2 = t1 => h e.symm]
      exact fun e => h e.symm

theorem compareSameType_self (a : Val) : compareSameType a a = 0 := by
  cases a <;> simp [compareSameType, cmpOf_self]

theorem compareSameType_anti (a b : Val) : compareSameType a b = -compareSameType b a := by
  cases a <;> cases b <;>
    first
      | exact cmpOf_anti _ _
      | (rename_i x y
         cases x <;> cases y <;> rfl)

theorem isNil_not_isNumber {a : Val} (h : isNumber a = true) : isNil a = false := by
  cases a <;> simp_all [isNil, isNumber]

theorem compareValues_refl (a : Val) : CompareValues a a = 0 := by
  unfold CompareValues
  cases ha : isNil a
  · cases hn : isNumber a <;>
      simp [ha, hn, sameType_refl, compareSameType_self, compareNumbers_self]
  · simp [ha]

theorem compareValues_anti (a b : Val) : CompareValues a b = -CompareValues b a := by
  unfold CompareValues
  cases ha : isNil a <;> cases hb : isNil b <;>
    cases hna : isNumber a <;> cases hnb : isNumber b <;>
      simp only [ha, hb, hna, hnb, Bool.and_true, Bool.and_false, Bool.true_and,
        Bool.false_and, Bool.false_eq_true, if_true, if_false, ite_false, ite_true,
        neg_neg, neg_zero] <;>
    first
      | rfl
      | decide
      | exact compareNumbers_anti _ _
      | (rw [sameType_comm b a]
         cases hst : sameType a b <;>
           simp only [hst, Bool.false_eq_true, if_true, if_false, ite_true, ite_false] <;>
           first
             | exact compareSameType_anti a b
             | exact cmpOf_anti _ _)

theorem specLE_trans (a b c : Val) (h1 : specLE a b) (h2 : specLE b c) : specLE a c := by
  unfold specLE at h1 h2 ⊢
  rcases h1 with h1 | ⟨e1, h1⟩
  · rcases h2 with h2 | ⟨e2, h2⟩
    · exact Or.inl (lt_trans h1 h2)
    · exact Or.inl (e2 ▸ h1)
  · rcases h2 with h2 | ⟨e2, h2⟩
    · exact Or.inl (e1 ▸ h2)
    · refine Or.inr ⟨e1.trans e2, ?_⟩
      rcases h1 with h1 | ⟨f1, h1⟩
      · rcases h2 with h2 | ⟨f2, h2⟩
        · exact Or.inl (lt_trans h1 h2)
        · exact Or.inl (f2 ▸ h1)
      · rcases h2 with h2 | ⟨f2, h2⟩
        · exact Or.inl (f1 ▸ h2)
        · exact Or.inr ⟨f1.trans f2, le_trans h1 h2⟩

theorem cmpOf_of_lt {α : Type} [LinearOrder α] {x y : α} (h : x < y) :
    cmpOf x y = -1 ∧ cmpOf y x = 1 :=
  ⟨by simp [cmpOf, h], by simp [cmpOf, lt_asymm h, h]⟩

theorem lblBF32 : ("bool" : String) < "float32" := by
  rw [String.lt_iff_toList_lt]; decide

theorem lblBF64 : ("bool" : String) < "float64" := by
  rw [String.lt_iff_toList_lt]; decide

theorem lblBI : ("bool" : String) < "int" := by
  rw [String.lt_iff_toList_lt]; decide

theorem lblBI32 : ("bool" : String) < "int32" := by
  rw [String.lt_iff_toList_lt]; decide

theorem lblBI64 : ("bool" : String) < "int64" := by
  rw [String.lt_iff_toList_lt]; decide

theorem lblBS : ("bool" : String) < "string" := by
  rw [String.lt_iff_toList_lt]; decide

theorem lblF32S : ("float32" : String) < "string" := by
  rw [String.lt_iff_toList_lt]; decide

theorem lblF64S : ("float64" : String) < "string" := by
  rw [String.lt_iff_toList_lt]; decide

theorem lblIS : ("int" : String) < "string" := by
  rw [String.lt_iff_toList_lt]; decide

theorem lblI32S : ("int32" : String) < "string" := by
  rw [String.lt_iff_toList_lt]; decide

theorem lblI64S : ("int64" : String) < "string" := by
  rw [String.lt_iff_toList_lt]; decide

theorem cmp_le_iff (a b : Val) (ha : plainV a = true) (hb : plainV b = true) :
    CompareValues a b ≤ 0 ↔ specLE a b := by
  cases a <;> cases b <;> simp_all [plainV, Option.isSome_iff_exists] <;>
    (try obtain ⟨qa, rfl⟩ := ha) <;> (try obtain ⟨qb, rfl⟩ := hb) <;>
    simp [CompareValues, isNil, isNumber, toFloat64, compareNumbers_some,
      cmpOf_nonpos, specLE, rankOf, keyq, keys, sameType, compareSameType, typeLabel,
      (cmpOf_of_lt lblBF32).1, (cmpOf_of_lt lblBF32).2,
      (cmpOf_of_lt lblBF64).1, (cmpOf_of_lt lblBF64).2,
      (cmpOf_of_lt lblBI).1, (cmpOf_of_lt lblBI).2,
      (cmpOf_of_lt lblBI32).1, (cmpOf_of_lt lblBI32).2,
      (cmpOf_of_lt lblBI64).1, (cmpOf_of_lt lblBI64).2,
      (cmpOf_of_lt lblBS).1, (cmpOf_of_lt lblBS).2,
      (cmpOf_of_lt lblF32S).1, (cmpOf_of_lt lblF32S).2,
      (cmpOf_of_lt lblF64S).1, (cmpOf_of_lt lblF64S).2,
      (cmpOf_of_lt lblIS).1, (cmpOf_of_lt lblIS).2,
      (cmpOf_of_lt lblI32S).1, (cmpOf_of_lt lblI32S).2,
      (cmpOf_of_lt lblI64S).1, (cmpOf_of_lt lblI64S).2] <;>
    first
      | rfl
      | decide
      | exact le_iff_lt_or_eq
      | (rename_i x y
         cases x <;> cases y <;> decide)

/-- C7 (corrected): on the full value domain `CompareValues` is reflexive
(`cmp(a,a) = 0`) and antisymmetric (`cmp(a,b) = -cmp(b,a)`), but transitivity
of `cmp(a,b) ≤ 0` holds only on plain values (nil, booleans, strings and
NaN-free numerics): a NaN float compares equal to every number, and a
fallback type label can sort between the numeric type labels, so either
breaks transitivity on the full domain the claim states. -/
theorem compareValues_total_preorder :
    (∀ a : Val, CompareValues a a = 0) ∧
    (∀ a b : Val, CompareValues a b = -CompareValues b a) ∧
    (∀ a b c : Val, plainV a = true → plainV b = true → plainV c = true →
      CompareValues a b ≤ 0 → CompareValues b c ≤ 0 → CompareValues a c ≤ 0) :=
  ⟨compareValues_refl, compareValues_anti, fun a b c ha hb hc h1 h2 =>
    (cmp_le_iff a c ha hc).mpr
      (specLE_trans a b c ((cmp_le_iff a b ha hb).mp h1) ((cmp_le_iff b c hb hc).mp h2))⟩

/-- C7 witness: the three properties applied at concrete plain inputs. -/
theorem compareValues_total_preorder_witness :
    CompareValues (Val.vint 1) (Val.vint 1) = 0 ∧
    CompareValues (Val.vint 1) (Val.vint 2) = -CompareValues (Val.vint 2) (Val.vint 1) ∧
    CompareValues (Val.vint 1) (Val.vint 3) ≤ 0 :=
  ⟨compareValues_total_preorder.1 (Val.vint 1),
   compareValues_total_preorder.2.1 (Val.vint 1) (Val.vint 2),
   compareValues_total_preorder.2.2 (Val.vint 1) (Val.vint 2) (Val.vint 3)
     rfl rfl rfl (by decide) (by decide)⟩

/-- C7 counterexample: with float64 NaN in the domain, as the claim demands,
transitivity of `cmp(a,b) ≤ 0` fails: `cmp(2.0, NaN) = 0` and
`cmp(NaN, 1.0) = 0` but `cmp(2.0, 1.0) = 1`. -/
theorem compareValues_nan_not_transitive :
    CompareValues (Val.vfloat64 (some 2)) (Val.vfloat64 none) ≤ 0 ∧
    CompareValues (Val.vfloat64 none) (Val.vfloat64 (some 1)) ≤ 0 ∧
    0 < CompareValues (Val.vfloat64 (some 2)) (Val.vfloat64 (some 1)) := by
  refine ⟨?_, ?_, ?_⟩ <;> decide

theorem visible_iff (v : DocVersion) (X : ℕ) (T : ℤ) :
    isVersionVisible v X T =
      decide (v.createdTxnID = X ∨ (v.committedTime ≠ 0 ∧ v.committedTime < T)) := by
  unfold isVersionVisible
  by_cases hc : v.createdTxnID = X
  · simp [hc]
  · by_cases h0 : v.committedTime = 0
    · simp [hc, h0]
    · by_cases hT : v.committedTime < T <;> simp [hc, h0, hT]

theorem readChain_eq_find (chain : List DocVersion) (X : ℕ) (T : ℤ) :
    readChain chain X T =
      match chain.find? (fun v => isVersionVisible v X T) with
      | none => .error .documentNotFound
      | some v => if v.deleted then .error .documentDeleted else .ok v.data := by
  induction chain with
  | nil => rfl
  | cons v rest ih =>
    rw [readChain]
    cases h : isVersionVisible v X T
    · simp [List.find?, h, ih]
    · simp [List.find?, h, CopyDocument_id]

/-- C1 (confirmed): for every document id, reader txn id `X` and snapshot
time `T`, `Collection.read` returns the data of the newest version in the
chain that is visible, where visible means created by `X`, or committed
(`committed_at ≠ 0`) with `committed_at < T`; it fails `DocumentDeleted`
when that first visible version is a tombstone, and `DocumentNotFound` when
no cell exists or no version is visible.  The value returned by the source
is `CopyDocument` of the version data, which is structurally equal to the
data itself (`CopyDocument_id`); structural independence of the copy is the
subject of C4. -/
theorem collRead_first_visible (c : Collection) (id : String) (X : ℕ) (T : ℤ) :
    collRead c id X T =
      match lookupAssoc c.documents id with
      | none => .error .documentNotFound
      | some chain =>
        match chain.find? (fun v =>
            decide (v.createdTxnID = X ∨ (v.committedTime ≠ 0 ∧ v.committedTime < T))) with
        | none => .error .documentNotFound
        | some v => if v.deleted then .error .documentDeleted else .ok v.data := by
  unfold collRead
  cases lookupAssoc c.documents id
  · rfl
  · rename_i chain
    simp only []
    show readChain chain X T = _
    rw [readChain_eq_find]
    have hp : (fun v => isVersionVisible v X T) =
        (fun v : DocVersion =>
          decide (v.createdTxnID = X ∨ (v.committedTime ≠ 0 ∧ v.committedTime < T))) :=
      funext (fun v => visible_iff v X T)
    rw [hp]

theorem readChain_error {chain : List DocVersion} {X : ℕ} {T : ℤ} {e : StoreError}
    (h : readChain chain X T = .error e) :
    e = .documentNotFound ∨ e = .documentDeleted := by
  induction chain with
  | nil =>
    rw [readChain] at h
    exact Or.inl (Except.error.inj h).symm
  | cons v rest ih =>
    rw [readChain] at h
    by_cases hv : isVersionVisible v X T
    · by_cases hd : v.deleted <;> simp [hv, hd] at h
      exact Or.inr h.symm
    · simp [hv] at h
      exact ih h

theorem collRead_error {c : Collection} {id : String} {X : ℕ} {T : ℤ} {e : StoreError}
    (h : collRead c id X T = .error e) :
    e = .documentNotFound ∨ e = .documentDeleted := by
  unfold collRead at h
  cases hl : lookupAssoc c.documents id with
  | none =>
    rw [hl] at h
    exact Or.inl (Except.error.inj h).symm
  | some chain =>
    rw [hl] at h
    exact readChain_error h

theorem tRead_error {c : Collection} {t : Txn} {id : String} {e : StoreError}
    (hcl : t.closed = false) (h : tRead c t id = .error e) :
    e = .documentNotFound ∨ e = .documentDeleted := by
  unfold tRead at h
  rw [hcl] at h
  simp only [Bool.false_eq_true, if_false] at h
  cases hw : lastWrite t.writes id with
  | some w =>
    rw [hw] at h
    by_cases hd : w.delete <;> simp [hd] at h
    exact Or.inr h.symm
  | none =>
    rw [hw] at h
    exact collRead_error h

/-- C10 (confirmed): for every transaction and document id, `Exists` returns
true (with no error) exactly when `Read` would return data, including data
pending in the write buffer; it returns false with no error when `Read`
would fail `DocumentNotFound` or `DocumentDeleted`; it fails
`TransactionClosed` when the transaction is closed, and these are the only
possible outcomes. -/
theorem tExists_spec (c : Collection) (t : Txn) (id : String) :
    (t.closed = true → tExists c t id = .error .transactionClosed) ∧
    (t.closed = false →
      ((tExists c t id = .ok true ↔ ∃ d, tRead c t id = .ok d) ∧
       (tExists c t id = .ok false ↔
         (tRead c t id = .error .documentNotFound ∨
          tRead c t id = .error .documentDeleted)) ∧
       ∀ e, tExists c t id ≠ .error e)) := by
  constructor
  · intro hcl
    simp [tExists, hcl]
  · intro hcl
    unfold tExists
    simp only [hcl, Bool.false_eq_true, if_false]
    cases hr : tRead c t id with
    | ok d => simp [hr]
    | error e =>
      rcases tRead_error hcl hr with he | he <;> subst he <;> simp [hr]

/-- C10 witness: `Exists` on a closed transaction fails `TransactionClosed`;
on an open transaction over an empty collection it returns false without an
error. -/
theorem tExists_spec_witness :
    tExists ⟨[], []⟩ ⟨1, 0, true, [], .txRW⟩ "x" = .error .transactionClosed ∧
    tExists ⟨[], []⟩ ⟨1, 0, false, [], .txRW⟩ "x" = .ok false :=
  ⟨(tExists_spec ⟨[], []⟩ ⟨1, 0, true, [], .txRW⟩ "x").1 rfl,
   ((tExists_spec ⟨[], []⟩ ⟨1, 0, false, [], .txRW⟩ "x").2 rfl).2.1.mpr (Or.inl rfl)⟩

/-- C2 (code bug): `Collection.write` is not all-or-nothing.  Committing the
buffer `[put "a" {title: A}, delete "b"]` against an empty collection fails
with `DocumentNotFound` on the delete, yet the put of "a" stays installed
and is visible to a later reader (txn 99, snapshot 60 > commit time 50) —
contradicting both the spec and the source comment that the batch is
applied atomically. -/
theorem writeBatch_nonatomic_commit_observable :
    (writeBatch ⟨[], []⟩
        [⟨"a", false, ⟨7, [("title", Val.vstr "A")]⟩⟩, ⟨"b", true, ⟨7, []⟩⟩] 50).2
      = some .documentNotFound ∧
    collRead (writeBatch ⟨[], []⟩
        [⟨"a", false, ⟨7, [("title", Val.vstr "A")]⟩⟩, ⟨"b", true, ⟨7, []⟩⟩] 50).1
        "a" 99 60
      = .ok [("title", Val.vstr "A")] :=
  ⟨rfl, rfl⟩

/-- C5 (code bug): garbage collection removes a version still reachable by
an active reader.  Reader txn 3 with snapshot time 10 is the only active
transaction, so the GC threshold is 10; the chain for "x" holds a version
committed at 20 (invisible to the reader) above one committed at 5 (the
version the reader sees).  `cleanupVersionChain` truncates starting at the
first version older than the threshold, dropping the committed-at-5 version,
so the same read flips from the data of that version to
`DocumentNotFound`. -/
theorem garbageCollect_drops_reachable_version :
    collRead ⟨[("x", [⟨2, 20, [("v", Val.vint 2)], false⟩,
                      ⟨1, 5, [("v", Val.vint 1)], false⟩])], []⟩ "x" 3 10
      = .ok [("v", Val.vint 1)] ∧
    collRead (garbageCollect
        ⟨[("x", [⟨2, 20, [("v", Val.vint 2)], false⟩,
                 ⟨1, 5, [("v", Val.vint 1)], false⟩])], []⟩
        [⟨3, 10, .txR⟩] 30) "x" 3 10
      = .error .documentNotFound :=
  ⟨rfl, rfl⟩

/-- C9 (code bug): `Collection.CreateIndex` performs no empty-fields check:
called with zero fields it succeeds and registers an index (whose empty key
indexes every committed document), instead of failing `EmptyIndex` and
leaving the registry unchanged as the claim states (the old `store.go`
facade does perform that check). -/
theorem collCreateIndex_accepts_empty_fields :
    collCreateIndex ⟨[("doc1", [⟨1, 5, [("title", Val.vstr "A")], false⟩])], []⟩
        "byNothing" []
      = .ok ⟨[("doc1", [⟨1, 5, [("title", Val.vstr "A")], false⟩])],
             [("byNothing", ⟨"byNothing", [], [⟨[], ["doc1"]⟩]⟩)]⟩ :=
  rfl

/-- C6 counterexample: in an open read-write transaction over an empty
collection, `Create` buffers a put for the fresh id "x", yet a subsequent
`Update` or `Delete` of "x" in the same still-open transaction fails with
`DocumentNotFound` — the claim states they succeed. -/
theorem tUpdate_after_create_fails :
    tCreate ⟨1, 100, false, [], .txRW⟩ "x" (some [("a", Val.vint 0)])
      = .ok (⟨1, 100, false, [⟨"x", false, ⟨1, [("a", Val.vint 0)]⟩⟩], .txRW⟩, "x") ∧
    tUpdate ⟨[], []⟩ ⟨1, 100, false, [⟨"x", false, ⟨1, [("a", Val.vint 0)]⟩⟩], .txRW⟩
        "x" (some [("a", Val.vint 1)])
      = .error .documentNotFound ∧
    tDelete ⟨[], []⟩ ⟨1, 100, false, [⟨"x", false, ⟨1, [("a", Val.vint 0)]⟩⟩], .txRW⟩ "x"
      = .error .documentNotFound :=
  ⟨rfl, rfl, rfl⟩

/-- C6 (corrected): `Update` and `Delete` on an open read-write transaction
verify presence through the MVCC collection read at (txnID, snapshotTime)
only, ignoring the write buffer: after `Create` returned an id with no cell
in the collection, both fail `DocumentNotFound`; they append a buffered
write exactly when the collection read succeeds. -/
theorem tUpdate_tDelete_check_collection_only (c : Collection) (t : Txn)
    (hcl : t.closed = false) (hm : t.mode = .txRW) :
    (∀ id d d2 t1, tCreate t id (some d) = .ok (t1, id) →
       lookupAssoc c.documents id = none →
       tUpdate c t1 id (some d2) = .error .documentNotFound ∧
       tDelete c t1 id = .error .documentNotFound) ∧
    (∀ id d2 dd, collRead c id t.txnID t.txnTime = .ok dd →
       tUpdate c t id (some d2)
         = .ok { t with writes := t.writes ++ [⟨id, false, ⟨t.txnID, d2⟩⟩] } ∧
       tDelete c t id
         = .ok { t with writes := t.writes ++ [⟨id, true, ⟨t.txnID, []⟩⟩] }) := by
  constructor
  · intro id d d2 t1 hcr hnc
    have ht1 : t1 = ⟨t.txnID, t.txnTime, false,
        t.writes ++ [⟨id, false, ⟨t.txnID, d⟩⟩], .txRW⟩ := by
      simp [tCreate, hcl, hm] at hcr
      exact hcr.symm
    subst ht1
    constructor
    · simp [tUpdate, hcl, hm, collRead, hnc]
    · simp [tDelete, hcl, hm, collRead, hnc]
  · intro id d2 dd h
    constructor
    · simp [tUpdate, hcl, hm, h]
    · simp [tDelete, hcl, hm, h]

/-- C6 witness: the corrected behavior at a concrete input (create of "x"
buffered in an open RW transaction, empty collection). -/
theorem tUpdate_tDelete_check_collection_only_witness :
    tUpdate ⟨[], []⟩ ⟨1, 100, false, [⟨"x", false, ⟨1, [("a", Val.vint 0)]⟩⟩], .txRW⟩
        "x" (some [("a", Val.vint 1)])
      = .error .documentNotFound ∧
    tDelete ⟨[], []⟩ ⟨1, 100, false, [⟨"x", false, ⟨1, [("a", Val.vint 0)]⟩⟩], .txRW⟩ "x"
      = .error .documentNotFound :=
  (tUpdate_tDelete_check_collection_only ⟨[], []⟩ ⟨1, 100, false, [], .txRW⟩ rfl rfl).1
    "x" [("a", Val.vint 0)] [("a", Val.vint 1)]
    ⟨1, 100, false, [⟨"x", false, ⟨1, [("a", Val.vint 0)]⟩⟩], .txRW⟩ rfl rfl

/-- C8 counterexample: after a committed create (time 5) and a committed
delete (time 10) of "x", a reader with snapshot 20 sees the tombstone and
`Collection.read` fails `DocumentDeleted`, not `DocumentNotFound` as the
claim states. -/
theorem collRead_after_delete_is_deleted :
    collRead (writeBatch (writeBatch ⟨[], []⟩
        [⟨"x", false, ⟨1, [("title", Val.vstr "A")]⟩⟩] 5).1
        [⟨"x", true, ⟨2, []⟩⟩] 10).1 "x" 9 20
      = .error .documentDeleted ∧
    StoreError.documentDeleted ≠ StoreError.documentNotFound :=
  ⟨rfl, by decide⟩

/-- C8 (corrected): after a document "x" is created and committed and a
delete of "x" is then committed (at a non-zero commit time), every
subsequent read of "x" by a reader whose snapshot is later than the commit
of the delete fails with `DocumentDeleted` (the tombstone signal), not
`DocumentNotFound`; the old `store.go` facade, whose `Delete` removes the
handle, is where `Get` answers `DocumentNotFound`. -/
theorem collRead_after_delete (d : Doc) (X1 X2 Xr : ℕ) (t1 t2 T : ℤ)
    (h0 : t2 ≠ 0) (hT : t2 < T) :
    collRead (writeBatch (writeBatch ⟨[], []⟩
        [⟨"x", false, ⟨X1, d⟩⟩] t1).1
        [⟨"x", true, ⟨X2, []⟩⟩] t2).1 "x" Xr T
      = .error .documentDeleted := by
  have hstate : (writeBatch (writeBatch ⟨[], []⟩
      [⟨"x", false, ⟨X1, d⟩⟩] t1).1 [⟨"x", true, ⟨X2, []⟩⟩] t2).1
      = ⟨[("x", [⟨X2, t2, [], true⟩, ⟨X1, t1, d, false⟩])], []⟩ := rfl
  rw [hstate]
  have hvis : isVersionVisible ⟨X2, t2, [], true⟩ Xr T = true := by
    unfold isVersionVisible
    by_cases hx : X2 = Xr <;> simp [hx, h0, hT]
  simp [collRead, lookupAssoc, readChain, hvis]

/-- C8 witness: the corrected behavior at concrete times (create at 5,
delete at 10, reader snapshot 20). -/
theorem collRead_after_delete_witness :
    collRead (writeBatch (writeBatch ⟨[], []⟩
        [⟨"x", false, ⟨1, [("title", Val.vstr "A")]⟩⟩] 5).1
        [⟨"x", true, ⟨2, []⟩⟩] 10).1 "x" 9 20
      = .error .documentDeleted :=
  collRead_after_delete [("title", Val.vstr "A")] 1 2 9 5 10 20
    (by decide) (by decide)

/-- C3 counterexample: an index whose single entry has key `[5]` with member
"d".  For min `[3]`, max `[5]`, the claim demands that the entry whose key
equals max be included, but `lookupRange` returns nothing: the btree
`AscendRange` excludes the upper pivot. -/
theorem lookupRange_excludes_max :
    lookupRange ⟨"by_score", ["score"], [⟨[Val.vint 5], ["d"]⟩]⟩
        [Val.vint 3] [Val.vint 5] = [] ∧
    lookupRangeInclusiveSpec ⟨"by_score", ["score"], [⟨[Val.vint 5], ["d"]⟩]⟩
        [Val.vint 3] [Val.vint 5] = ["d"] :=
  ⟨rfl, rfl⟩

/-- C3 (corrected): `lookup_range(min, max)` returns exactly the union of
the member-sets of the entries whose key `K` satisfies `min ≤ K < max`
under the §4.1 order — inclusive lower bound, exclusive upper bound: an
entry whose key equals max is excluded.  (For NaN-free keys, on which the
order is total, the result is consequently empty whenever `min ≥ max`.) -/
theorem lookupRange_mem (fi : FieldIdx) (minValues maxValues : IKey) (d : String) :
    d ∈ lookupRange fi minValues maxValues ↔
      ∃ e, e ∈ fi.tree ∧ keyLess e.key minValues = false ∧
        keyLess e.key maxValues = true ∧ d ∈ e.docIDs := by
  simp only [lookupRange, List.mem_flatMap, List.mem_filter, Bool.and_eq_true,
    Bool.not_eq_true']
  constructor
  · rintro ⟨e, ⟨he, h1, h2⟩, hd⟩
    exact ⟨e, he, h1, h2, hd⟩
  · rintro ⟨e, he, h1, h2, hd⟩
    exact ⟨e, ⟨he, h1, h2⟩, hd⟩

/-- C4 (code bug): the buffered-read path of `Transaction.Read` hands the
caller the very mapping stored in the write buffer, not a copy.  In the
heap-explicit model: reading "x" pending in the buffer yields reference 0
into the arena; after the caller mutates that mapping in place, a subsequent
read of "x" yields the same reference, now holding the mutated data — so
the returned mapping is not structurally independent.  By contrast the
collection path (document "y" with a committed version) allocates a fresh
copy on every read: mutating the mapping returned for "y" leaves the next
read of "y" unchanged. -/
theorem tRead_buffer_returns_shared_reference :
    hRead ⟨[[("k", Val.vint 0)]], [], 1, 100, false, [⟨"x", false, 0⟩]⟩ "x"
      = (⟨[[("k", Val.vint 0)]], [], 1, 100, false, [⟨"x", false, 0⟩]⟩, .ok 0) ∧
    derefHeap [[("k", Val.vint 0)]] 0 = [("k", Val.vint 0)] ∧
    (hRead (mutateHeap ⟨[[("k", Val.vint 0)]], [], 1, 100, false,
        [⟨"x", false, 0⟩]⟩ 0 [("k", Val.vint 1)]) "x").2 = .ok 0 ∧
    derefHeap (mutateHeap ⟨[[("k", Val.vint 0)]], [], 1, 100, false,
        [⟨"x", false, 0⟩]⟩ 0 [("k", Val.vint 1)]).heap 0 = [("k", Val.vint 1)] ∧
    (hRead ⟨[[("k", Val.vint 0)]], [("y", [⟨7, 5, 0, false⟩])], 1, 100, false, []⟩ "y").2
      = .ok 1 ∧
    derefHeap (hRead ⟨[[("k", Val.vint 0)]], [("y", [⟨7, 5, 0, false⟩])],
        1, 100, false, []⟩ "y").1.heap 1 = [("k", Val.vint 0)] ∧
    (hRead (mutateHeap (hRead ⟨[[("k", Val.vint 0)]], [("y", [⟨7, 5, 0, false⟩])],
        1, 100, false, []⟩ "y").1 1 [("k", Val.vint 1)]) "y").2 = .ok 2 ∧
    derefHeap (hRead (mutateHeap (hRead ⟨[[("k", Val.vint 0)]],
        [("y", [⟨7, 5, 0, false⟩])], 1, 100, false, []⟩ "y").1 1
        [("k", Val.vint 1)]) "y").1.heap 2 = [("k", Val.vint 0)] :=
  ⟨rfl, rfl, rfl, rfl, rfl, rfl, rfl, rfl⟩
